import Mathlib

/-!
# Verification of the `practice` quiz application's import / compile pipeline

Shallow embedding of the parts of the `practice` Django app that the claims
concern: the LaTeX `enumerate` importers (`import_tex.py`,
`import_mc_enumerate.py`), the answer evaluator and attempt submission
(`views.py`), the statistics endpoint (`views_stats.py`), and the TeX
compilation endpoints (`views_tex.py`, `utils/latex_assets.py`,
`views.tex_svg`).

Strings are modelled as `List Char`; the Python regular expressions used by
the importers are literal-token scanners and are embedded as explicit
left-to-right scans with Python's leftmost-match / resume-at-match-end
(`re.finditer`) semantics.
-/

namespace LMS

/-- Python's `\s` character class restricted to ASCII, as used by `str.strip`,
`re` whitespace and the importers' `_trim`. -/
def isPySpace (c : Char) : Bool :=
  c = ' ' || c = '\t' || c = '\n' || c = '\r' || c = '\x0b' || c = '\x0c'

/-- Python's `\w` (word character) class restricted to ASCII, used for the
`\b` word boundary in `ENUM_TOKEN_RE`'s `\item\b`. -/
def isWordChar (c : Char) : Bool :=
  c.isAlpha || c.isDigit || c = '_'

/-- Python `str.strip()`; also `import_tex._trim`, which is
`re.sub(r"\s+\Z", "", re.sub(r"\A\s+", "", s))`. -/
def pyStrip (s : List Char) : List Char :=
  ((s.dropWhile isPySpace).reverse.dropWhile isPySpace).reverse

/-- Truthiness of `s.strip()` in Python: `True` iff the stripped string is
nonempty. -/
def isBlank (s : List Char) : Bool :=
  (pyStrip s).isEmpty

/-- Python slicing `s[a:b]` (for `a ≤ b ≤ len s`; clamps like Python). -/
def sliceStr (s : List Char) (a b : Nat) : List Char :=
  (s.drop a).take (b - a)

/-- Whether `nd` occurs as a contiguous substring of the second list
(Python's `in` on strings). -/
def hasSubstr (nd : List Char) : List Char → Bool
  | [] => nd.isEmpty
  | c :: rest => nd.isPrefixOf (c :: rest) || hasSubstr nd rest

/-- Position of the first occurrence of `nd` (Python `re.search` for a
literal pattern); `p` is the position of the head of the list in the
original string. -/
def findSubstr (nd : List Char) : List Char → Nat → Option Nat
  | [], p => if nd.isEmpty then some p else none
  | c :: rest, p =>
    if nd.isPrefixOf (c :: rest) then some p else findSubstr nd rest (p + 1)

/-- The literal `\begin{enumerate}` (17 characters). -/
def beginLit : List Char := "\\begin\x7benumerate\x7d".toList

/-- The literal `\end{enumerate}` (15 characters). -/
def endLit : List Char := "\\end\x7benumerate\x7d".toList

/-- The literal `\item` (5 characters). -/
def itemLit : List Char := "\\item".toList

/-- The `\b` word boundary after `\item`: the next character is absent or is
not a word character. -/
def noWordAfter : List Char → Bool
  | [] => true
  | c :: _ => !(isWordChar c)

/-- Token kinds matched by `import_tex.ENUM_TOKEN_RE`
(`(\begin{enumerate})|(\end{enumerate})|(\item\b)`). -/
inductive EnumTok
  | beg
  | fin
  | item
deriving DecidableEq, Repr

/-- `re.finditer(ENUM_TOKEN_RE, ·)` starting at original-string position `p`:
the list of matched tokens with their `(m.start(), m.end())` positions.
Matches are non-overlapping, found left to right, and scanning resumes at
each match's end, exactly as in Python; `skip` counts the characters of the
current match that remain to be stepped over. -/
def scanEnumAux : Nat → List Char → Nat → List (EnumTok × Nat × Nat)
  | _, [], _ => []
  | skip + 1, _ :: rest, p => scanEnumAux skip rest (p + 1)
  | 0, c :: rest, p =>
    if beginLit.isPrefixOf (c :: rest) then
      (.beg, p, p + 17) :: scanEnumAux 16 rest (p + 1)
    else if endLit.isPrefixOf (c :: rest) then
      (.fin, p, p + 15) :: scanEnumAux 14 rest (p + 1)
    else if itemLit.isPrefixOf (c :: rest) && noWordAfter ((c :: rest).drop 5) then
      (.item, p, p + 5) :: scanEnumAux 4 rest (p + 1)
    else
      scanEnumAux 0 rest (p + 1)

/-- All `ENUM_TOKEN_RE` matches of a string starting at position `p`. -/
def scanEnumTokens (s : List Char) (p : Nat) : List (EnumTok × Nat × Nat) :=
  scanEnumAux 0 s p

/-- The loop of `import_tex._split_top_level_items` (lines 62–85): walk the
tokens found from the first `\begin{enumerate}` onwards, tracking `depth`,
the pending item's start `cur`, and the accumulated `items`; stop (Python
`break`) at the `\end{enumerate}` seen at depth 1.  Returns
`(items, current_start, end_index)` as at loop exit. -/
def splitItemsLoop (body : List Char) :
    List (EnumTok × Nat × Nat) → Int → Option Nat → List (List Char) →
    List (List Char) × Option Nat × Option Nat
  | [], _, cur, acc => (acc, cur, none)
  | (.beg, _, _) :: ts, depth, cur, acc =>
    splitItemsLoop body ts (depth + 1) cur acc
  | (.fin, st, en) :: ts, depth, cur, acc =>
    if depth = 1 then
      match cur with
      | some c => (acc ++ [sliceStr body c st], none, some en)
      | none => (acc, none, some en)
    else
      splitItemsLoop body ts (depth - 1) cur acc
  | (.item, st, en) :: ts, depth, cur, acc =>
    if depth = 1 then
      match cur with
      | some c => splitItemsLoop body ts depth (some en) (acc ++ [sliceStr body c st])
      | none => splitItemsLoop body ts depth (some en) acc
    else
      splitItemsLoop body ts depth cur acc

/-- Lines 87–88 of `import_tex.py`: after the loop, if an item is still open
and no closing `\end{enumerate}` was seen, flush it up to the end of the
body. -/
def splitTailFlush (body : List Char) :
    List (List Char) × Option Nat × Option Nat → List (List Char)
  | (items, some c, none) => items ++ [sliceStr body c body.length]
  | (items, some _, some _) => items
  | (items, none, _) => items

/-- `import_tex._split_top_level_items` (lines 49–90): returns
`(preamble, items)` where `preamble` is everything before the first
`\begin{enumerate}` and `items` are the top-level `\item` blocks, each
trimmed, whitespace-only blocks dropped. -/
def split_top_level_items (body : List Char) : List Char × List (List Char) :=
  match findSubstr beginLit body 0 with
  | none => (body, [])
  | some m0 =>
    let items :=
      splitTailFlush body (splitItemsLoop body (scanEnumTokens (body.drop m0) m0) 0 none [])
    (body.take m0, (items.filter (fun x => !(isBlank x))).map pyStrip)

/-- Claim-side (spec) definition: "the depth-1 `\item` blocks of the
outermost `enumerate`, in document order".  Tokens after the first
`\begin{enumerate}` are given nesting depths; every `\item` at depth 1
opens a block, which runs to the next depth-1 `\item` or to the
`\end{enumerate}` that closes the outermost environment (or to the end of
the document when that environment is never closed). -/
def depth1BlocksLoop (body : List Char) :
    List (EnumTok × Nat × Nat) → Int → Option Nat → List (List Char)
  | [], _, cur =>
    match cur with
    | some c => [sliceStr body c body.length]
    | none => []
  | (.beg, _, _) :: ts, depth, cur => depth1BlocksLoop body ts (depth + 1) cur
  | (.fin, st, _) :: ts, depth, cur =>
    if depth = 1 then
      match cur with
      | some c => [sliceStr body c st]
      | none => []
    else
      depth1BlocksLoop body ts (depth - 1) cur
  | (.item, st, en) :: ts, depth, cur =>
    if depth = 1 then
      match cur with
      | some c => sliceStr body c st :: depth1BlocksLoop body ts depth (some en)
      | none => depth1BlocksLoop body ts depth (some en)
    else
      depth1BlocksLoop body ts depth cur

/-- The depth-1 `\item` blocks of the outermost `enumerate` of `body`
(empty when `body` has no `\begin{enumerate}`). -/
def depth1Blocks (body : List Char) : List (List Char) :=
  match findSubstr beginLit body 0 with
  | none => []
  | some m0 => depth1BlocksLoop body (scanEnumTokens (body.drop m0) m0) 0 none

/-- Whether the `\begin{enumerate}` / `\end{enumerate}` tokens of a document
are balanced (never more closes than opens, and equally many overall). -/
def balCheck : List (EnumTok × Nat × Nat) → Nat → Bool
  | [], d => d = 0
  | (.beg, _, _) :: ts, d => balCheck ts (d + 1)
  | (.fin, _, _) :: ts, d => d != 0 && balCheck ts (d - 1)
  | (.item, _, _) :: ts, d => balCheck ts d

/-- Balancedness of the enumerate tokens of a whole document. -/
def balancedEnum (body : List Char) : Bool :=
  balCheck (scanEnumTokens body 0) 0

/-! ## The `import_mc_enumerate` tokenizer and document walk

`TOKEN_RE` is
`(\begin{enumerate}(\[(?P<opt>.*?)\]))|(\end{enumerate})|(^\item(?:\s+|$))`
with `re.M`: a `\begin{enumerate}` is recognised only when immediately
followed by a bracketed option list on the same line, and an `\item` only at
the start of a line, swallowing the following whitespace run. -/

/-- Characters of the option list `[...]` after `\begin{enumerate}`:
the non-greedy `.*?` up to the first `]`, failing on a newline (`.` does not
match `\n`). Input starts right after the literal `[`. -/
def takeOptChars : List Char → Option (List Char)
  | [] => none
  | c :: rest =>
    if c = ']' then some []
    else if c = '\n' then none
    else (takeOptChars rest).map (c :: ·)

/-- Try `TOKEN_RE`'s first alternative at the current position: the literal
`\begin{enumerate}` followed by `[opt]`.  Returns the option characters. -/
def tryBeginOpt (s : List Char) : Option (List Char) :=
  if beginLit.isPrefixOf s then
    match s.drop 17 with
    | '[' :: rest => takeOptChars rest
    | _ => none
  else none

/-- Tokens matched by `import_mc_enumerate.TOKEN_RE`. -/
inductive McTok
  | beg (opt : List Char) (st en : Nat)
  | fin (st en : Nat)
  | item (st en : Nat)
deriving DecidableEq, Repr

/-- Whether the last character of a list is a newline (used to know whether a
matched whitespace run ends at a line start). -/
def lastIsNl (l : List Char) : Bool :=
  match l.getLast? with
  | some c => c = '\n'
  | none => false

/-- `re.finditer(TOKEN_RE, tex)`: scan left to right; `ls` records whether
the current position is a line start (for the `^` of the `\item`
alternative), `p` is the current position in the original string.
The `\item` alternative is `^\item(?:\s+|$)` — it matches `\item` at a line
start followed by a (greedy) whitespace run, or bare `\item` at the very end
of the string. -/
def scanMcAux : Nat → List Char → Bool → Nat → List McTok
  | _, [], _, _ => []
  | skip + 1, c :: rest, _, p => scanMcAux skip rest (c = '\n') (p + 1)
  | 0, c :: rest, ls, p =>
    match tryBeginOpt (c :: rest) with
    | some opt =>
      .beg opt p (p + (19 + opt.length)) :: scanMcAux (18 + opt.length) rest (c = '\n') (p + 1)
    | none =>
      if endLit.isPrefixOf (c :: rest) then
        .fin p (p + 15) :: scanMcAux 14 rest (c = '\n') (p + 1)
      else if ls && itemLit.isPrefixOf (c :: rest) then
        let ws := ((c :: rest).drop 5).takeWhile isPySpace
        if ws.isEmpty then
          -- `\s+` fails; the `$` branch matches only at the end of the string
          if (c :: rest).drop 5 = [] then
            .item p (p + 5) :: scanMcAux 4 rest (c = '\n') (p + 1)
          else
            scanMcAux 0 rest (c = '\n') (p + 1)
        else
          .item p (p + 5 + ws.length) :: scanMcAux (4 + ws.length) rest (c = '\n') (p + 1)
      else
        scanMcAux 0 rest (c = '\n') (p + 1)

/-- All `TOKEN_RE` matches of a string; `ls` is whether the scan starts at a
line start (true at position 0). -/
def scanMcTokens (s : List Char) (ls : Bool) (p : Nat) : List McTok :=
  scanMcAux 0 s ls p

/-- `"A\\arabic*"`, the marker `Command.handle` looks for in the active
enumerate's options to recognise a top-level problem item. -/
def arabicLit : List Char := "A\\arabic*".toList

/-- `"\\textbf{A\\arabic*"`, the second marker (implied by the first, but
kept as in the source). -/
def textbfArabicLit : List Char := "\\textbf\x7bA\\arabic*".toList

/-- The token walk of `import_mc_enumerate.Command.handle` (lines 69–107):
`stack` holds the raw options of the open enumerates (top first), `cur` the
pending problem item's start position and the label it was opened under,
`acc` the collected problem items.  After the loop, a still-open item is
closed at the end of the file. -/
def mcWalkLoop (tex : List Char) :
    List McTok → List (List Char) → Option (Nat × List Char) → List (List Char) →
    List (List Char)
  | [], _, cur, acc =>
    match cur with
    | some (c, _) => acc ++ [sliceStr tex c tex.length]
    | none => acc
  | .beg opt _ _ :: ts, stack, cur, acc =>
    mcWalkLoop tex ts (opt :: stack) cur acc
  | .fin st _ :: ts, stack, cur, acc =>
    let closing :=
      match cur with
      | some (c, lbl) =>
        if stack.head? = some lbl then (acc ++ [sliceStr tex c st], none)
        else (acc, some (c, lbl))
      | none => (acc, none)
    mcWalkLoop tex ts stack.tail closing.2 closing.1
  | .item st en :: ts, stack, cur, acc =>
    let lbl := stack.head?.getD []
    if hasSubstr arabicLit lbl || hasSubstr textbfArabicLit lbl then
      match cur with
      | some (c, _) => mcWalkLoop tex ts stack (some (en, lbl)) (acc ++ [sliceStr tex c st])
      | none => mcWalkLoop tex ts stack (some (en, lbl)) acc
    else
      mcWalkLoop tex ts stack cur acc

/-- The list of problem items `Command.handle` collects for one `.tex` file
(`problem_items` after the walk and the end-of-file flush). -/
def mcProblemItems (tex : List Char) : List (List Char) :=
  mcWalkLoop tex (scanMcTokens tex true 0) [] none []

/-- A balanced test document: one outer `enumerate` labelled `A\arabic*`
with a single depth-1 `\item`, containing a nested `enumerate` written
without bracketed options. -/
def c1Doc : List Char :=
  ("\\begin\x7benumerate\x7d[label=A\\arabic*.]\n\\item P\n\\begin\x7benumerate\x7d\n" ++
   "\\item x\n\\end\x7benumerate\x7d\n\\end\x7benumerate\x7d\n").toList

/-! ## Instrumentation of the `_split_top_level_items` walk (single-pass claim)

`splitVisited` mirrors `splitItemsLoop` exactly, but returns the tokens the
loop consumes (the loop `break`s at the `\end{enumerate}` seen at depth 1,
leaving the remaining tokens unvisited). -/

/-- The tokens consumed by `splitItemsLoop` before it stops. -/
def splitVisited :
    List (EnumTok × Nat × Nat) → Int → Option Nat → List (EnumTok × Nat × Nat)
  | [], _, _ => []
  | (.beg, st, en) :: ts, d, cur => (.beg, st, en) :: splitVisited ts (d + 1) cur
  | (.fin, st, en) :: ts, d, cur =>
    if d = 1 then [(.fin, st, en)]
    else (.fin, st, en) :: splitVisited ts (d - 1) cur
  | (.item, st, en) :: ts, d, cur =>
    if d = 1 then (.item, st, en) :: splitVisited ts d (some en)
    else (.item, st, en) :: splitVisited ts d cur

/-- The tokens of `body` visited by `_split_top_level_items`' walk. -/
def splitVisitedTokens (body : List Char) : List (EnumTok × Nat × Nat) :=
  match findSubstr beginLit body 0 with
  | none => []
  | some m0 => splitVisited (scanEnumTokens (body.drop m0) m0) 0 none

/-- A document with a second top-level enumerate-`\item` region after the
first `enumerate` is closed. -/
def c10Doc : List Char :=
  ("\\begin\x7benumerate\x7d\\item a\\end\x7benumerate\x7d\\item b").toList

/-! ## The two inner-choice parsers (`split_choices_from_body`,
`_parse_nested_choices`) -/

/-- `re.split(r"\item\s+", body)` of `import_mc_enumerate.
split_choices_from_body`: split on `\item` followed by a (greedy) nonempty
whitespace run, anywhere in the string.  `skip` steps over the remainder of
a match. -/
def splitItemWsAux : Nat → List Char → List Char → List (List Char)
  | _, [], acc => [acc.reverse]
  | skip + 1, _ :: rest, acc => splitItemWsAux skip rest acc
  | 0, c :: rest, acc =>
    let ws := ((c :: rest).drop 5).takeWhile isPySpace
    if itemLit.isPrefixOf (c :: rest) && !ws.isEmpty then
      acc.reverse :: splitItemWsAux (4 + ws.length) rest []
    else
      splitItemWsAux 0 rest (c :: acc)

/-- The parts of `re.split(r"\item\s+", s)`. -/
def reSplitItemWs (s : List Char) : List (List Char) :=
  splitItemWsAux 0 s []

/-- The letters `"ABCDEFGHIJKLMNOPQRSTUVWXYZ"` used as choice labels. -/
def lettersLit : List Char := "ABCDEFGHIJKLMNOPQRSTUVWXYZ".toList

/-- `import_mc_enumerate.split_choices_from_body` (lines 23–32): split the
body on `\item␣`, strip the parts, drop blank ones (the part before the
first `\item` included), and label the first 26 parts `A`, `B`, … in
order. -/
def split_choices_from_body (body : List Char) : List (List Char × List Char) :=
  let parts := ((reSplitItemWs body).filter (fun p => !(isBlank p))).map pyStrip
  (lettersLit.zip parts).map (fun cp => ([cp.1], cp.2))

/-- `re.split(r"(?m)^\s*\item\b", s)` of `import_tex._parse_nested_choices`:
split at a line start followed by a whitespace run and `\item` with a word
boundary; the match ends right after `\item` (`\b` is zero-width).  `ls`
tracks whether the current position is a line start. -/
def splitLineItemAux : Nat → List Char → Bool → List Char → List (List Char)
  | _, [], _, acc => [acc.reverse]
  | skip + 1, c :: rest, _, acc => splitLineItemAux skip rest (c = '\n') acc
  | 0, c :: rest, ls, acc =>
    let ws := (c :: rest).takeWhile isPySpace
    let after := (c :: rest).drop ws.length
    if ls && itemLit.isPrefixOf after && noWordAfter (after.drop 5) then
      acc.reverse :: splitLineItemAux (ws.length + 4) rest (c = '\n') []
    else
      splitLineItemAux 0 rest (c = '\n') (c :: acc)

/-- The parts of `re.split(r"(?m)^\s*\item\b", s)`. -/
def reSplitLineItem (s : List Char) : List (List Char) :=
  splitLineItemAux 0 s true []

/-- The label `_parse_nested_choices` gives the `i`-th part: `letters[i]`
for `i < 26`, else `str(i+1)`. -/
def nestedLabel (i : Nat) : List Char :=
  if i < 26 then [lettersLit.getD i 'A'] else (Nat.repr (i + 1)).toList

/-- `import_tex._parse_nested_choices` (lines 34–47): split at line-start
`\item`s, drop everything before the first one, drop blank parts, trim each
kept part, and label the parts `A`, `B`, …, `27`, … in order. -/
def parse_nested_choices (block : List Char) : List (List Char × List Char) :=
  let parts := ((reSplitLineItem block).drop 1).filter (fun p => !(isBlank p))
  parts.enum.map (fun ip => (nestedLabel ip.1, pyStrip ip.2))

/-- Render a list of choice texts in the normal form both parsers are meant
for: each choice on its own line as `\item ⟨text⟩`. -/
def renderChoices (ts : List (List Char)) : List Char :=
  (ts.map (fun t => itemLit ++ ' ' :: (t ++ ['\n']))).flatten

/-- A single-line inner-enumerate body, `\item a \item b`. -/
def c8Body : List Char := "\\item a \\item b".toList

/-! ## `ALPH_ENUM_RE` and the question records built by `import_mc_enumerate` -/

/-- The literal `[label=(\Alph*)]` required by `ALPH_ENUM_RE` after
`\begin{enumerate}\s*`. -/
def alphLabelLit : List Char := "[label=(\\Alph*)]".toList

/-- Match the head of `ALPH_ENUM_RE`
(`\begin{enumerate}\s*\[label=\(\Alph\*\)\]`) at the start of `s`; returns
the matched length.  `\s*` is greedy and `[` is not whitespace, so the
whole whitespace run must be consumed. -/
def alphHeadLen (s : List Char) : Option Nat :=
  if beginLit.isPrefixOf s then
    let rest := s.drop 17
    let w := (rest.takeWhile isPySpace).length
    if alphLabelLit.isPrefixOf (rest.drop w) then some (17 + w + 16) else none
  else none

/-- `ALPH_ENUM_RE.search`: leftmost position where the head matches and a
`\end{enumerate}` follows; the non-greedy `(?P<body>[\s\S]*?)` makes the
body run to the first such `\end{enumerate}`.  Returns
`(m.start(), body)`. -/
def alphSearchAux : List Char → Nat → Option (Nat × List Char)
  | [], _ => none
  | c :: rest, p =>
    match alphHeadLen (c :: rest) with
    | some L =>
      match findSubstr endLit ((c :: rest).drop L) 0 with
      | some q => some (p, (((c :: rest).drop L).take q))
      | none => alphSearchAux rest (p + 1)
    | none => alphSearchAux rest (p + 1)

/-- JSON values as stored in the `submitted` / `correct` JSON fields.
Floating-point numbers only ever reach the `numeric` branch of
`evaluate_answer`, which is abstracted as a parameter, so numbers are
modelled as integers here. -/
inductive JVal
  | s (v : String)
  | i (v : Int)
  | b (v : Bool)
  | null
deriving DecidableEq, Repr

/-- A JSON object (Python `dict`, insertion-ordered, unique keys). -/
abbrev JDict := List (String × JVal)

/-- The fields of a `Question` row relevant to the claims. -/
structure QuestionRow where
  /-- `Question.type` -/
  qtype : String
  /-- `Question.stem_md` -/
  stem_md : List Char
  /-- `Question.choices` -/
  choices : List (List Char × List Char)
  /-- `Question.correct` -/
  correct : JDict
deriving DecidableEq, Repr

/-- Lines 113–122 of `import_mc_enumerate.py`: build one problem record from
a problem item: if `ALPH_ENUM_RE` matches, type `"choices"` with the inner
body split into choices, else type `"open"`.  (`correct` is stored as `{}`,
line 138.) -/
def mcRecord (item : List Char) : QuestionRow :=
  match alphSearchAux item 0 with
  | some (st, body) =>
    { qtype := "choices", stem_md := pyStrip (item.take st),
      choices := split_choices_from_body body, correct := [] }
  | none =>
    { qtype := "open", stem_md := pyStrip item, choices := [], correct := [] }

/-- The records parsed from one `.tex` file by `import_mc_enumerate`. -/
def mcFileRecords (tex : List Char) : List QuestionRow :=
  (mcProblemItems tex).map mcRecord

/-- Lines 130–140 of `import_mc_enumerate.py` (non-dry-run): for each parsed
record in order, skip it when a stored question already has exactly its
`stem_md` (`Question.objects.filter(stem_md=stem_md).exists()`), otherwise
create it.  The state is the list of stored `stem_md`s; returns the new
state and the created rows. -/
def mcRunImport : List QuestionRow → List (List Char) → List (List Char) × List QuestionRow
  | [], db => (db, [])
  | r :: rest, db =>
    if r.stem_md ∈ db then
      mcRunImport rest db
    else
      let out := mcRunImport rest (db ++ [r.stem_md])
      (out.1, r :: out.2)

/-- A full run of `import_mc_enumerate` over a list of file contents. -/
def mcImportAll (texts : List (List Char)) (db : List (List Char)) :
    List (List Char) × List QuestionRow :=
  mcRunImport (texts.flatMap mcFileRecords) db

/-- `Question.TYPE_CHOICES` of `practice/models.py` (lines 40–45). -/
def TYPE_CHOICES : List String := ["mcq", "numeric", "short", "algebra"]

/-! ## `evaluate_answer` and `submit_attempt_item` (`views.py`) -/

/-- Python `dict.get`. -/
def jGet (d : JDict) (k : String) : Option JVal :=
  d.lookup k

/-- The normalisation `lambda s: "".join((s or "").lower().split())` of the
`short`/`algebra` branch, applied to a value read from JSON: missing keys
and `null` behave as `None` (falsy, giving `""`); falsy `0` and `False`
give `""`; any other non-string raises `AttributeError` at `.lower()`. -/
def pyNormText : Option JVal → Except String (List Char)
  | none => .ok []
  | some .null => .ok []
  | some (.s v) => .ok ((v.toList.filter (fun c => !(isPySpace c))).map Char.toLower)
  | some (.i v) => if v = 0 then .ok [] else .error "AttributeError"
  | some (.b v) => if v then .error "AttributeError" else .ok []

/-- `views.evaluate_answer` (lines 61–76).  The `numeric` branch performs
floating-point parsing and tolerance comparison; it is abstracted as the
parameter `numericEval` (none of the proved claims enters that branch).
Every type other than `mcq`, `numeric`, `short`, `algebra` falls through to
`False`. -/
def evaluate_answer (numericEval : JDict → JDict → Except String Bool)
    (q : QuestionRow) (submitted : JDict) : Except String Bool :=
  if q.qtype = "mcq" then
    .ok (decide (jGet submitted "choice" = jGet q.correct "choice"))
  else if q.qtype = "numeric" then
    numericEval submitted q.correct
  else if q.qtype = "short" ∨ q.qtype = "algebra" then do
    let a ← pyNormText (jGet submitted "text")
    let b ← pyNormText (jGet q.correct "text")
    .ok (decide (a = b))
  else
    .ok false

/-- The fields of the `AttemptItem` row created by `submit_attempt_item`
that the claims concern. -/
structure AttemptItemRow where
  question_type : String
  submitted : JDict
  is_correct : Bool
deriving DecidableEq, Repr

/-- `views.submit_attempt_item` (lines 155–182), the part that evaluates the
answer and records it: `is_correct = evaluate_answer(q, submitted)` is
stored on the created `AttemptItem`. -/
def submit_attempt_item (numericEval : JDict → JDict → Except String Bool)
    (q : QuestionRow) (submitted : JDict) : Except String AttemptItemRow := do
  let c ← evaluate_answer numericEval q submitted
  .ok { question_type := q.qtype, submitted := submitted, is_correct := c }

/-! ## `compile_tex` (`practice/utils/latex_assets.py`, lines 82–104) -/

/-- Outcome of the `subprocess.run` call (with `timeout=timeout`). -/
inductive TexRun
  | timeout
  | done (rc : Int) (stdout stderr : String)
deriving DecidableEq, Repr

/-- The environment `compile_tex` runs against: whether `_tectonic` finds a
binary, the subprocess outcome for a given source, and the bytes of the
`doc.pdf` the engine writes when it exits 0. -/
structure TexToolEnv where
  tectonic : Option String
  run : String → TexRun
  pdf : String → List Nat

/-- The exceptions `compile_tex` can raise: `RuntimeError` from
`_tectonic()` when the binary is missing, `subprocess.TimeoutExpired`, and
`subprocess.CalledProcessError` when the engine exits nonzero. -/
inductive CompileTexErr
  | runtimeNotFound
  | timedOut
  | calledProcess (rc : Int) (stdout stderr : String)
deriving DecidableEq, Repr

/-- `latex_assets.compile_tex`: find the binary (raising if absent), run the
engine (propagating a timeout), raise `CalledProcessError` on a nonzero
return code, otherwise read and return `doc.pdf`. -/
def compile_tex (env : TexToolEnv) (tex_source : String) :
    Except CompileTexErr (List Nat) :=
  match env.tectonic with
  | none => .error .runtimeNotFound
  | some _ =>
    match env.run tex_source with
    | .timeout => .error .timedOut
    | .done rc out err =>
      if rc ≠ 0 then .error (.calledProcess rc out err) else .ok (env.pdf tex_source)

/-! ## `tex_pdf` (`practice/views_tex.py`, lines 87–109) -/

/-- The POST body: either invalid JSON (`json.loads` raises) or a JSON
object whose optional `"tex"` field is a string. -/
inductive PostBody
  | badJson
  | json (texField : Option String)
deriving DecidableEq, Repr

/-- A request to `tex_pdf` (the route only admits GET and POST). -/
inductive TexReq
  | get (tex : String)
  | post (body : PostBody)
deriving DecidableEq, Repr

/-- The behaviour of `compile_tex_bytes` for a given tex string: PDF bytes,
or the message of the `RuntimeError` it raises (the compiler log, or
`"tectonic binary not found"`, etc.). -/
structure TexPdfEnv where
  compile : String → Except String (List Nat)

/-- An HTTP response from `tex_pdf`. -/
inductive HttpResp
  | badRequest (body : String) (ctype : String)
  | ok (content : List Nat) (ctype : String) (cacheControl : String)
deriving DecidableEq, Repr

/-- Lines 98–109 of `views_tex.py`: blank tex → 400 `missing tex`;
`RuntimeError` from compilation → 400 with the log as `text/plain`;
success → the PDF bytes as `application/pdf` with `Cache-Control:
no-store`. -/
def texPdfBody (env : TexPdfEnv) (tex : String) : HttpResp :=
  if isBlank tex.toList then
    .badRequest "missing tex" "text/html"
  else
    match env.compile tex with
    | .error log => .badRequest log "text/plain"
    | .ok bytes => .ok bytes "application/pdf" "no-store"

/-- `views_tex.tex_pdf`: read the tex from GET `?tex=` or the POST JSON
body (invalid JSON → 400 `invalid json`), then compile. -/
def tex_pdf (env : TexPdfEnv) (req : TexReq) : HttpResp :=
  match req with
  | .get t => texPdfBody env t
  | .post .badJson => .badRequest "invalid json" "text/html"
  | .post (.json f) => texPdfBody env (f.getD "")

/-! ## `tex_svg` (`practice/views.py`, lines 559–661) -/

/-- The on-disk cache under `static/texcache`, keyed by file name
(`<sha1>.svg` / `<sha1>.png`). -/
structure TexCacheState where
  svg : List (String × List Nat)
  png : List (String × List Nat)
deriving DecidableEq, Repr

/-- Outcome of one tectonic invocation inside `tex_svg` (30 s timeout). -/
inductive SvgRun
  | timeout
  | done (rc : Int) (out : String)

/-- The environment `tex_svg` runs against.  `sha1` is
`hashlib.sha1(tex.encode()).hexdigest()` and `forbid` is
`_FORBID_RE.search`, both deterministic functions of the tex string,
abstracted here; the converters are deterministic functions of the wrapped
document. -/
structure TexSvgEnv where
  sha1 : String → String
  forbid : String → Bool
  tectonic : Option String
  runModern : String → SvgRun
  runLegacy : String → SvgRun
  cairoOk : String → Bool
  cairoSvg : String → List Nat
  ppmOk : String → Bool
  ppmPng : String → List Nat

/-- A response from `tex_svg`. -/
inductive SvgResp
  | badRequest (msg : String)
  | err (status : Nat) (msg : String)
  | file (ctype : String) (content : List Nat)
deriving DecidableEq, Repr

/-- `_STANDALONE_PREAMBLE % tex`: the text before `%s`, then the snippet,
then the closing lines. -/
def standaloneWrap (tex : String) : String :=
  "\n\\documentclass[preview,border=2pt]\x7bstandalone\x7d\n" ++
  "\\usepackage[T1]\x7bfontenc\x7d\n" ++
  "\\usepackage\x7bamsmath,amssymb,mathtools\x7d\n" ++
  "\\usepackage\x7bbooktabs\x7d\n" ++
  "\\usepackage\x7btikz,pgfplots,tcolorbox\x7d\n" ++
  "\\pgfplotsset\x7bcompat=1.18\x7d\n" ++
  "\\begin\x7bdocument\x7d\n" ++ tex ++ "\n\\end\x7bdocument\x7d\n"

/-- Lines 571–580: resolve the tex input — the `tex` GET parameter, falling
back to `Question.stem_md` looked up by the `qid` parameter when `tex` is
missing or empty. -/
def resolveSvgTex (questions : List (Nat × String)) (texParam : Option String)
    (qid : Option Nat) : Except SvgResp String :=
  if texParam.getD "" = "" then
    match qid with
    | some q =>
      match questions.lookup q with
      | some stem => .ok stem
      | none => .error (.badRequest "bad qid")
    | none => .ok ""
  else
    .ok (texParam.getD "")

/-- `views.tex_svg`: forbid-check, then look the SHA-1-keyed `.svg` / `.png`
cache files up and serve them when present; otherwise compile with tectonic
(modern CLI then legacy), convert to SVG via `pdftocairo` (falling back to
PNG via `pdftoppm`), store the result in the cache, and serve it.  Returns
the response, the new cache state, and whether the TeX engine was
invoked. -/
def tex_svg (env : TexSvgEnv) (st : TexCacheState) (questions : List (Nat × String))
    (texParam : Option String) (qid : Option Nat) : SvgResp × TexCacheState × Bool :=
  match resolveSvgTex questions texParam qid with
  | .error r => (r, st, false)
  | .ok tex =>
    if tex = "" then (.badRequest "missing tex", st, false)
    else if env.forbid tex then (.err 400 "forbidden_tex", st, false)
    else
      let h := env.sha1 tex
      let svgKey := h ++ ".svg"
      let pngKey := h ++ ".png"
      match st.svg.lookup svgKey with
      | some bytes => (.file "image/svg+xml" bytes, st, false)
      | none =>
        match st.png.lookup pngKey with
        | some bytes => (.file "image/png" bytes, st, false)
        | none =>
          match env.tectonic with
          | none => (.err 500 "tectonic_not_found", st, false)
          | some _ =>
            let wrapper := standaloneWrap tex
            let convert : SvgResp × TexCacheState × Bool :=
              if env.cairoOk wrapper then
                let bytes := env.cairoSvg wrapper
                (.file "image/svg+xml" bytes,
                  { st with svg := (svgKey, bytes) :: st.svg }, true)
              else if env.ppmOk wrapper then
                let bytes := env.ppmPng wrapper
                (.file "image/png" bytes,
                  { st with png := (pngKey, bytes) :: st.png }, true)
              else
                (.err 500 "convert_failed", st, true)
            match env.runModern wrapper with
            | .timeout => (.err 504 "latex_timeout", st, true)
            | .done rc out =>
              if rc ≠ 0 then
                match env.runLegacy wrapper with
                | .timeout => (.err 504 "latex_timeout", st, true)
                | .done rc2 out2 =>
                  if rc2 ≠ 0 then
                    (.err 422 ("tectonic_failed:\n" ++ out ++ "\n" ++ out2), st, true)
                  else convert
              else convert

/-! ## `stats_me` (`practice/views_stats.py`) -/

/-- An `AttemptView` row joined through its attempt to the student. -/
structure AttemptViewRow where
  attempt_student : Nat
  question : Nat
  view_ms : Nat
deriving DecidableEq, Repr

/-- An `AttemptItem` row joined through its attempt to the student. -/
structure AttemptItemDbRow where
  attempt_student : Nat
  question : Nat
  is_correct : Bool
  created_at : Nat
deriving DecidableEq, Repr

/-- Line 4 of `views_stats.py`: `from django.db.models import Sum` — the
only name imported from `django.db.models` in that module. -/
def viewsStatsDbImports : List String := ["Sum"]

/-- The JSON payload `stats_me` intends to return.  (The percentage and
average fields use exact rationals; Python's float rounding is irrelevant
here because the branch computing them is unreachable.) -/
structure StatsMeOut where
  viewed_count : Nat
  correct_viewed_count : Nat
  accuracy_pct : ℚ
  avg_view_s : ℚ
deriving DecidableEq, Repr

/-- `views_stats.stats_me`: per-question view-time totals (via the imported
`Sum`), then — line 35 — the latest-`AttemptItem`-per-question query is
built with `Max('created_at')`, but `Max` is never imported, so evaluating
that expression raises `NameError`; the view never returns. -/
def stats_me (views : List AttemptViewRow) (items : List AttemptItemDbRow)
    (user : Nat) : Except String StatsMeOut :=
  let mine := views.filter (fun v => v.attempt_student == user)
  let qids := (mine.map (·.question)).dedup
  let per_q := qids.map (fun q =>
    (q, ((mine.filter (fun v => v.question == q)).map (·.view_ms)).sum))
  let viewed_count := qids.length
  if viewsStatsDbImports.contains "Max" then
    -- unreachable: the accuracy over the most recent AttemptItem per viewed
    -- question that lines 29–68 intend to compute
    let latest := qids.filterMap (fun q =>
      (items.filter (fun it => it.attempt_student == user && it.question == q)).argmax
        (·.created_at))
    let correct := (latest.filter (·.is_correct)).length
    .ok { viewed_count := viewed_count
          correct_viewed_count := correct
          accuracy_pct :=
            if viewed_count = 0 then 0 else (correct * 100 : ℚ) / viewed_count
          avg_view_s :=
            if viewed_count = 0 then 0
            else ((per_q.map (·.2)).sum : ℚ) / viewed_count / 1000 }
  else
    .error "NameError: name Max is not defined"

/-- The tex input `tex_pdf` reads from a request (`None` when the POST body
fails to parse). -/
def reqTex : TexReq → Option String
  | .get t => some t
  | .post .badJson => none
  | .post (.json f) => some (f.getD "")

/-- A well-formed `import_mc_enumerate` input: one `A\arabic*` problem with
an inner `(\Alph*)` choice enumerate. -/
def c3Doc : List Char :=
  ("\\begin\x7benumerate\x7d[label=A\\arabic*.]\n\\item Q1\n" ++
   "\\begin\x7benumerate\x7d[label=(\\Alph*)]\n\\item p \\item q\n" ++
   "\\end\x7benumerate\x7d\n\\end\x7benumerate\x7d\n").toList

/-- The question record `import_mc_enumerate` creates from `c3Doc`. -/
def c3Question : QuestionRow :=
  { qtype := "choices", stem_md := "Q1".toList,
    choices := [(['A'], ['p']), (['B'], ['q'])], correct := [] }

/-- A concrete environment for exercising `tex_svg`: compilation and the
SVG conversion succeed. -/
def c2Env : TexSvgEnv :=
  { sha1 := fun _ => "h", forbid := fun _ => false, tectonic := some "tectonic",
    runModern := fun _ => .done 0 "", runLegacy := fun _ => .done 0 "",
    cairoOk := fun _ => true, cairoSvg := fun _ => [1, 2, 3],
    ppmOk := fun _ => false, ppmPng := fun _ => [] }

/-! ## Theorems -/

/-- The `_split_top_level_items` loop (with its `break` and end-of-input
flush) computes exactly the spec-side depth-1 blocks, appended to the
accumulator. -/
theorem splitItemsLoop_spec (body : List Char) :
    ∀ (toks : List (EnumTok × Nat × Nat)) (d : Int) (cur : Option Nat)
      (acc : List (List Char)),
    splitTailFlush body (splitItemsLoop body toks d cur acc) =
      acc ++ depth1BlocksLoop body toks d cur := by
  intro toks
  induction toks with
  | nil =>
    intro d cur acc
    cases cur <;> simp [splitItemsLoop, depth1BlocksLoop, splitTailFlush]
  | cons t ts ih =>
    intro d cur acc
    obtain ⟨k, st, en⟩ := t
    cases k with
    | beg => simpa [splitItemsLoop, depth1BlocksLoop] using ih (d + 1) cur acc
    | fin =>
      by_cases hd : d = 1
      · cases cur <;> simp [splitItemsLoop, depth1BlocksLoop, hd, splitTailFlush]
      · simpa [splitItemsLoop, depth1BlocksLoop, hd] using ih (d - 1) cur acc
    | item =>
      by_cases hd : d = 1
      · cases cur with
        | none => simpa [splitItemsLoop, depth1BlocksLoop, hd] using ih d (some en) acc
        | some c =>
          simpa [splitItemsLoop, depth1BlocksLoop, hd] using
            ih d (some en) (acc ++ [sliceStr body c st])
      · simpa [splitItemsLoop, depth1BlocksLoop, hd] using ih d cur acc

/-- **C1** (amended, `import_tex` half): for every document body,
`_split_top_level_items` returns exactly the depth-1 `\item` blocks of the
outermost `enumerate`, in document order — whitespace-trimmed, with
whitespace-only blocks dropped.  In particular an `\item` inside a nested
(depth > 1) enumerate never starts an item block.  (This holds for all
bodies, balanced or not.) -/
theorem C1_split_returns_depth1_blocks (body : List Char) :
    (split_top_level_items body).2 =
      ((depth1Blocks body).filter (fun x => !(isBlank x))).map pyStrip := by
  unfold split_top_level_items depth1Blocks
  cases h : findSubstr beginLit body 0 with
  | none => simp
  | some m0 => simp [splitItemsLoop_spec]

/-- **C1** (counterexample): on the balanced document `c1Doc` the outermost
enumerate has exactly one depth-1 `\item` block, but the token walk of
`import_mc_enumerate.Command.handle` produces two problem records — the
`\item` inside the nested (depth-2) enumerate starts a new problem record,
because `TOKEN_RE` does not recognise a `\begin{enumerate}` written without
bracketed options.  This refutes the claim for the `import_mc_enumerate`
walk. -/
theorem C1_counterexample :
    balancedEnum c1Doc = true ∧
    (depth1Blocks c1Doc).length = 1 ∧
    (mcProblemItems c1Doc).length = 2 ∧
    mcProblemItems c1Doc ≠ (depth1Blocks c1Doc).map pyStrip := by
  refine ⟨by decide, by decide, by decide, by decide⟩

/-- **C10** (amended): the `_split_top_level_items` walk is single-pass and
total: the tokens it consumes form a prefix of the token stream (each
matched token is visited at most once, in document order, with no
rescanning), and its result is entirely determined by that prefix.  (The
walk `break`s at the `\end{enumerate}` closing the outermost enumerate, so
tokens after it — and, in `import_mc_enumerate`, tokens its narrower regex
never matches — are not visited at all; see the counterexample.) -/
theorem C10_split_walk_single_pass (body : List Char) :
    ∀ (toks : List (EnumTok × Nat × Nat)) (d : Int) (cur : Option Nat)
      (acc : List (List Char)),
      splitVisited toks d cur <+: toks ∧
      splitItemsLoop body toks d cur acc =
        splitItemsLoop body (splitVisited toks d cur) d cur acc := by
  intro toks
  induction toks with
  | nil => intro d cur acc; exact ⟨List.nil_prefix, rfl⟩
  | cons t ts ih =>
    intro d cur acc
    obtain ⟨k, st, en⟩ := t
    cases k with
    | beg =>
      obtain ⟨r, hr⟩ := (ih (d + 1) cur acc).1
      refine ⟨⟨r, ?_⟩, ?_⟩
      · simp only [splitVisited, List.cons_append, hr]
      · simp only [splitVisited, splitItemsLoop]
        exact (ih (d + 1) cur acc).2
    | fin =>
      by_cases hd : d = 1
      · refine ⟨⟨ts, by simp [splitVisited, hd]⟩, ?_⟩
        simp [splitVisited, splitItemsLoop, hd]
      · obtain ⟨r, hr⟩ := (ih (d - 1) cur acc).1
        refine ⟨⟨r, ?_⟩, ?_⟩
        · simp only [splitVisited, if_neg hd, List.cons_append, hr]
        · simp only [splitVisited, splitItemsLoop, if_neg hd]
          exact (ih (d - 1) cur acc).2
    | item =>
      by_cases hd : d = 1
      · cases cur with
        | none =>
          obtain ⟨r, hr⟩ := (ih d (some en) acc).1
          refine ⟨⟨r, ?_⟩, ?_⟩
          · simp only [splitVisited, if_pos hd, List.cons_append, hr]
          · simp only [splitVisited, splitItemsLoop, if_pos hd]
            exact (ih d (some en) acc).2
        | some c =>
          obtain ⟨r, hr⟩ := (ih d (some en) (acc ++ [sliceStr body c st])).1
          refine ⟨⟨r, ?_⟩, ?_⟩
          · simp only [splitVisited, if_pos hd, List.cons_append, hr]
          · simp only [splitVisited, splitItemsLoop, if_pos hd]
            exact (ih d (some en) (acc ++ [sliceStr body c st])).2
      · obtain ⟨r, hr⟩ := (ih d cur acc).1
        refine ⟨⟨r, ?_⟩, ?_⟩
        · simp only [splitVisited, if_neg hd, List.cons_append, hr]
        · simp only [splitVisited, splitItemsLoop, if_neg hd]
          exact (ih d cur acc).2

/-- **C10** (counterexample): on `c10Doc` the document has four
`ENUM_TOKEN_RE` tokens, but the `_split_top_level_items` walk stops at the
`\end{enumerate}` closing the outermost enumerate and never visits the
fourth (`\item`) token — so the walk does not visit each token of the
document exactly once. -/
theorem C10_counterexample :
    (scanEnumTokens c10Doc 0).map (fun t => t.1) =
      [EnumTok.beg, EnumTok.item, EnumTok.fin, EnumTok.item] ∧
    (splitVisitedTokens c10Doc).map (fun t => t.1) =
      [EnumTok.beg, EnumTok.item, EnumTok.fin] ∧
    splitVisitedTokens c10Doc ≠ scanEnumTokens c10Doc 0 := by
  refine ⟨by decide, by decide, by decide⟩

/-- Helper: rows created by `mcRunImport` come from the parsed records. -/
theorem mcRunImport_created_mem :
    ∀ (rs : List QuestionRow) (db : List (List Char)) (q : QuestionRow),
      q ∈ (mcRunImport rs db).2 → q ∈ rs := by
  intro rs
  induction rs with
  | nil => intro db q h; simp [mcRunImport] at h
  | cons r rest ih =>
    intro db q h
    by_cases hr : r.stem_md ∈ db
    · simp only [mcRunImport, if_pos hr] at h
      exact List.mem_cons_of_mem _ (ih db q h)
    · simp only [mcRunImport, if_neg hr, List.mem_cons] at h
      rcases h with h | h
      · exact h ▸ List.mem_cons_self r rest
      · exact List.mem_cons_of_mem _ (ih _ q h)

/-- Helper: every record parsed by `import_mc_enumerate` has type
`"choices"` or `"open"`. -/
theorem mcRecord_qtype (item : List Char) :
    (mcRecord item).qtype = "choices" ∨ (mcRecord item).qtype = "open" := by
  unfold mcRecord
  rcases alphSearchAux item 0 with _ | ⟨st, body⟩ <;> simp

/-- Helper: every row a full `import_mc_enumerate` run creates has type
`"choices"` or `"open"`. -/
theorem mcImportAll_created_qtype (texts : List (List Char)) (db : List (List Char))
    (q : QuestionRow) (h : q ∈ (mcImportAll texts db).2) :
    q.qtype = "choices" ∨ q.qtype = "open" := by
  have hmem := mcRunImport_created_mem _ _ _ h
  rw [List.mem_flatMap] at hmem
  obtain ⟨tex, _, hq⟩ := hmem
  rw [mcFileRecords, List.mem_map] at hq
  obtain ⟨item, _, rfl⟩ := hq
  exact mcRecord_qtype item

/-- **C3** (amended): `Question.TYPE_CHOICES` declares four types (`mcq`,
`numeric`, `short`, `algebra`), but nothing validates stored types against
it: every `Question` row created by `import_mc_enumerate` has type
`"choices"` (item with an inner `[label=(\Alph*)]` enumerate) or `"open"`
(otherwise) — neither among the spec's three types — while `import_tex`
stores the file-header type unvalidated (defaulting to `"mcq"`).  The API
views create no `Question` rows. -/
theorem C3_mc_import_types (texts : List (List Char)) (db : List (List Char))
    (q : QuestionRow) (h : q ∈ (mcImportAll texts db).2) :
    q.qtype = "choices" ∨ q.qtype = "open" :=
  mcImportAll_created_qtype texts db q h

/-- **C3** (witness): the concrete import of `c3Doc` creates `c3Question`,
whose type the theorem classifies. -/
theorem C3_mc_import_types_witness :
    c3Question ∈ (mcImportAll [c3Doc] []).2 ∧
    (c3Question.qtype = "choices" ∨ c3Question.qtype = "open") :=
  ⟨by decide, C3_mc_import_types [c3Doc] [] c3Question (by decide)⟩

/-- **C3** (counterexample): the question imported from `c3Doc` has type
`"choices"`, which is none of the three spec-declared types `mcq`,
`numeric`, `short` — refuting the claim that every created row's type is
one of the three. -/
theorem C3_counterexample :
    (mcImportAll [c3Doc] []).2.map (fun q => q.qtype) = ["choices"] ∧
    ¬ ("choices" ∈ (["mcq", "numeric", "short"] : List String)) := by
  refine ⟨by decide, by decide⟩

/-- Helper: the stored stems only grow during an import run. -/
theorem mcRunImport_db_mono :
    ∀ (rs : List QuestionRow) (db : List (List Char)) (x : List Char),
      x ∈ db → x ∈ (mcRunImport rs db).1 := by
  intro rs
  induction rs with
  | nil => intro db x h; simpa [mcRunImport] using h
  | cons r rest ih =>
    intro db x h
    by_cases hr : r.stem_md ∈ db
    · simpa [mcRunImport, if_pos hr] using ih db x h
    · simpa [mcRunImport, if_neg hr] using
        ih (db ++ [r.stem_md]) x (List.mem_append_left _ h)

/-- Helper: after a run, the stem of every processed record is stored. -/
theorem mcRunImport_stem_mem :
    ∀ (rs : List QuestionRow) (db : List (List Char)) (r : QuestionRow),
      r ∈ rs → r.stem_md ∈ (mcRunImport rs db).1 := by
  intro rs
  induction rs with
  | nil => intro db r h; simp at h
  | cons r' rest ih =>
    intro db r h
    rcases List.mem_cons.mp h with rfl | h
    · by_cases hr : r.stem_md ∈ db
      · simpa [mcRunImport, if_pos hr] using mcRunImport_db_mono rest db _ hr
      · simpa [mcRunImport, if_neg hr] using
          mcRunImport_db_mono rest (db ++ [r.stem_md]) _
            (List.mem_append_right _ (List.mem_singleton.mpr rfl))
    · by_cases hr : r'.stem_md ∈ db
      · simpa [mcRunImport, if_pos hr] using ih db r h
      · simpa [mcRunImport, if_neg hr] using ih (db ++ [r'.stem_md]) r h

/-- Helper: when every stem is already stored, a run changes nothing and
creates nothing. -/
theorem mcRunImport_all_present :
    ∀ (rs : List QuestionRow) (db : List (List Char)),
      (∀ r ∈ rs, r.stem_md ∈ db) → mcRunImport rs db = (db, []) := by
  intro rs
  induction rs with
  | nil => intro db _; rfl
  | cons r rest ih =>
    intro db h
    have hr : r.stem_md ∈ db := h r (List.mem_cons_self r rest)
    simp only [mcRunImport, if_pos hr]
    exact ih db (fun r' hr' => h r' (List.mem_cons_of_mem _ hr'))

/-- **C9**: re-running `import_mc_enumerate` over the same files is
idempotent: a parsed record whose stem equals an already-stored `stem_md`
is skipped outright, and a second full run over unchanged files creates no
rows and leaves the stored stems unchanged. -/
theorem C9_reimport_idempotent :
    (∀ (r : QuestionRow) (rest : List QuestionRow) (db : List (List Char)),
        r.stem_md ∈ db → mcRunImport (r :: rest) db = mcRunImport rest db) ∧
    (∀ (texts : List (List Char)) (db0 : List (List Char)),
        mcImportAll texts (mcImportAll texts db0).1 =
          ((mcImportAll texts db0).1, [])) := by
  constructor
  · intro r rest db h
    simp [mcRunImport, if_pos h]
  · intro texts db0
    exact mcRunImport_all_present _ _
      (fun r hr => mcRunImport_stem_mem _ db0 r hr)

/-- **C9** (witness): a record with an already-stored stem is skipped, and
the second run over `c3Doc` creates nothing. -/
theorem C9_reimport_idempotent_witness :
    mcRunImport [{ qtype := "open", stem_md := ['a'], choices := [], correct := [] }]
        [['a']] =
      mcRunImport [] [['a']] ∧
    mcImportAll [c3Doc] (mcImportAll [c3Doc] []).1 = ((mcImportAll [c3Doc] []).1, []) :=
  ⟨C9_reimport_idempotent.1 _ [] [['a']] (by decide),
   C9_reimport_idempotent.2 [c3Doc] []⟩

/-- **C5**: `evaluate_answer` returns `False` for every question whose type
is not `mcq`, `numeric`, `short` or `algebra` — whatever the submitted
answer and whatever the numeric branch would do — and consequently every
answer submitted through `submit_attempt_item` against a question created
by `import_mc_enumerate` (type `"choices"` or `"open"`) is recorded with
`is_correct = False`. -/
theorem C5_default_false :
    (∀ (numericEval : JDict → JDict → Except String Bool) (q : QuestionRow)
        (sub : JDict),
        q.qtype ≠ "mcq" → q.qtype ≠ "numeric" → q.qtype ≠ "short" →
        q.qtype ≠ "algebra" →
        evaluate_answer numericEval q sub = .ok false) ∧
    (∀ (numericEval : JDict → JDict → Except String Bool)
        (texts : List (List Char)) (db : List (List Char)) (q : QuestionRow)
        (sub : JDict),
        q ∈ (mcImportAll texts db).2 →
        submit_attempt_item numericEval q sub =
          .ok { question_type := q.qtype, submitted := sub, is_correct := false }) := by
  have heval : ∀ (numericEval : JDict → JDict → Except String Bool)
      (q : QuestionRow) (sub : JDict),
      q.qtype ≠ "mcq" → q.qtype ≠ "numeric" → q.qtype ≠ "short" →
      q.qtype ≠ "algebra" → evaluate_answer numericEval q sub = .ok false := by
    intro numericEval q sub h1 h2 h3 h4
    simp [evaluate_answer, h1, h2, h3, h4]
  refine ⟨heval, ?_⟩
  intro numericEval texts db q sub hq
  have htype := mcImportAll_created_qtype texts db q hq
  have h : evaluate_answer numericEval q sub = .ok false := by
    rcases htype with h | h <;>
      exact heval numericEval q sub (by simp [h]) (by simp [h]) (by simp [h]) (by simp [h])
  unfold submit_attempt_item
  rw [h]
  rfl

/-- **C5** (witness): evaluation at a concrete `"open"` question, and a
concrete submission against the question imported from `c3Doc`. -/
theorem C5_default_false_witness :
    evaluate_answer (fun _ _ => .ok true)
        { qtype := "open", stem_md := [], choices := [], correct := [] }
        [("choice", .s "A")] = .ok false ∧
    submit_attempt_item (fun _ _ => .ok true) c3Question [("choice", .s "A")] =
      .ok { question_type := c3Question.qtype, submitted := [("choice", .s "A")],
            is_correct := false } :=
  ⟨C5_default_false.1 _ _ _ (by decide) (by decide) (by decide) (by decide),
   C5_default_false.2 _ [c3Doc] [] c3Question _ (by decide)⟩

/-- **C4**: `views_stats.stats_me` can never return: line 35 evaluates
`Max('created_at')` but line 4 imports only `Sum` from `django.db.models`,
so every request raises `NameError` (an HTTP 500) instead of returning the
statistics JSON the claim describes. -/
theorem C4_stats_me_raises (views : List AttemptViewRow)
    (items : List AttemptItemDbRow) (user : Nat) :
    stats_me views items user = .error "NameError: name Max is not defined" := by
  rfl

/-- **C6**: `compile_tex` raises exactly when the subprocess pipeline
fails: `RuntimeError` iff the tectonic binary is not found,
`TimeoutExpired` iff the engine times out, `CalledProcessError rc` iff the
engine exits with `rc ≠ 0`; otherwise it returns the produced PDF's bytes.
No other recovery is attempted. -/
theorem C6_compile_tex_errors_iff (env : TexToolEnv) (tex : String) :
    (compile_tex env tex = .error .runtimeNotFound ↔ env.tectonic = none) ∧
    (compile_tex env tex = .error .timedOut ↔
      env.tectonic ≠ none ∧ env.run tex = .timeout) ∧
    (∀ (rc : Int) (out err : String),
      compile_tex env tex = .error (.calledProcess rc out err) ↔
        env.tectonic ≠ none ∧ env.run tex = .done rc out err ∧ rc ≠ 0) ∧
    (compile_tex env tex = .ok (env.pdf tex) ↔
      env.tectonic ≠ none ∧ ∃ out err, env.run tex = .done 0 out err) := by
  rcases htec : env.tectonic with _ | exe
  · simp [compile_tex, htec]
  · rcases hrun : env.run tex with _ | ⟨rc, out, err⟩
    · simp [compile_tex, htec, hrun]
    · by_cases hrc : rc = 0
      · subst hrc
        simp [compile_tex, htec, hrun]
      · constructor
        · simp [compile_tex, htec, hrun, hrc]
        constructor
        · simp [compile_tex, htec, hrun, hrc]
        constructor
        · intro rc' out' err'
          simp only [compile_tex, htec, hrun]
          rw [if_pos hrc]
          constructor
          · intro h
            injection h with h
            injection h with h1 h2 h3
            exact ⟨by simp, by rw [h1, h2, h3], h1 ▸ hrc⟩
          · rintro ⟨-, h2, -⟩
            injection h2 with h1 h2 h3
            rw [h1, h2, h3]
        · simp [compile_tex, htec, hrun, hrc]

/-- **C7**: `tex_pdf` returns HTTP 400 exactly when the tex input is
missing/blank, the POST body fails to parse as JSON, or compilation raises
(in which case the compiler log is the `text/plain` body); on success it
returns the PDF bytes as `application/pdf` with `Cache-Control:
no-store`. -/
theorem C7_tex_pdf_400_iff (env : TexPdfEnv) (req : TexReq) :
    ((∃ b ct, tex_pdf env req = .badRequest b ct) ↔
      req = .post .badJson ∨
        (∃ t, reqTex req = some t ∧
          (isBlank t.toList = true ∨ ∃ log, env.compile t = .error log))) ∧
    (∀ (t : String) (bytes : List Nat),
      reqTex req = some t → isBlank t.toList = false → env.compile t = .ok bytes →
        tex_pdf env req = .ok bytes "application/pdf" "no-store") := by
  have hbody : ∀ t, ((∃ b ct, texPdfBody env t = .badRequest b ct) ↔
      (isBlank t.toList = true ∨ ∃ log, env.compile t = .error log)) := by
    intro t
    unfold texPdfBody
    cases hb : isBlank t.toList
    · rcases hc : env.compile t with log | bytes <;> simp [hb, hc]
    · simp [hb]
  have hok : ∀ t bytes, isBlank t.toList = false → env.compile t = .ok bytes →
      texPdfBody env t = .ok bytes "application/pdf" "no-store" := by
    intro t bytes hb hc
    unfold texPdfBody
    simp [hc, show isBlank t.data = false from hb]
  cases req with
  | get t =>
    refine ⟨?_, ?_⟩
    · simpa [tex_pdf, reqTex] using (hbody t).trans (by simp)
    · intro t' bytes ht hb hc
      injection ht with ht
      subst ht
      simpa [tex_pdf] using hok _ bytes hb hc
  | post body =>
    cases body with
    | badJson =>
      refine ⟨?_, ?_⟩
      · simp [tex_pdf, reqTex]
      · intro t bytes ht
        simp [reqTex] at ht
    | json f =>
      refine ⟨?_, ?_⟩
      · simpa [tex_pdf, reqTex] using (hbody (f.getD "")).trans (by simp)
      · intro t bytes ht hb hc
        injection ht with ht
        subst ht
        simpa [tex_pdf] using hok _ bytes hb hc

/-- **C7** (witness): a GET request with compilable tex. -/
theorem C7_tex_pdf_400_iff_witness :
    tex_pdf ⟨fun _ => .ok [37]⟩ (.get "x") = .ok [37] "application/pdf" "no-store" :=
  (C7_tex_pdf_400_iff ⟨fun _ => .ok [37]⟩ (.get "x")).2 "x" [37] rfl (by decide) rfl

/-- **C2**: `tex_svg`'s cache is keyed by the SHA-1 hash of the tex snippet
(`sha1(tex) ++ ".svg"` / `".png"`), a deterministic function of the tex
string, so identical tex maps to the same cache file; and whenever a
request is answered with a file — in particular once a request has
compiled and stored the SVG (or PNG fallback) — repeating the request with
the same tex serves the stored bytes from the cache file, leaves the cache
unchanged, and does not invoke the TeX engine (third component `false`). -/
theorem C2_tex_svg_cache (env : TexSvgEnv) (st : TexCacheState)
    (questions : List (Nat × String)) (texParam : Option String) (qid : Option Nat)
    (ct : String) (bytes : List Nat) (st' : TexCacheState) (inv : Bool)
    (h : tex_svg env st questions texParam qid = (.file ct bytes, st', inv)) :
    tex_svg env st' questions texParam qid = (.file ct bytes, st', false) := by
  unfold tex_svg at h ⊢
  cases hres : resolveSvgTex questions texParam qid with
  | error r =>
    simp only [hres] at h ⊢
    injection h with hr hrest
    injection hrest with hst hinv
    subst hst
    rw [hr]
  | ok tex =>
    simp only [hres] at h ⊢
    by_cases h1 : tex = ""
    · simp [h1] at h
    · rw [if_neg h1] at h ⊢
      cases hfb : env.forbid tex with
      | true => simp [hfb] at h
      | false =>
        simp only [hfb, Bool.false_eq_true, if_false] at h ⊢
        cases hsvg : st.svg.lookup (env.sha1 tex ++ ".svg") with
        | some b0 =>
          simp only [hsvg] at h
          injection h with hr hrest
          injection hrest with hst hinv
          subst hst
          simp only [hsvg]
          rw [hr]
        | none =>
          simp only [hsvg] at h
          cases hpng : st.png.lookup (env.sha1 tex ++ ".png") with
          | some b0 =>
            simp only [hpng] at h
            injection h with hr hrest
            injection hrest with hst hinv
            subst hst
            simp only [hsvg, hpng]
            rw [hr]
          | none =>
            simp only [hpng] at h
            cases htec : env.tectonic with
            | none => simp [htec] at h
            | some exe =>
              simp only [htec] at h
              cases hrun : env.runModern (standaloneWrap tex) with
              | timeout => simp [hrun] at h
              | done rc out =>
                simp only [hrun] at h
                by_cases hrc : rc = 0
                · rw [if_neg (by simp [hrc])] at h
                  cases hca : env.cairoOk (standaloneWrap tex) with
                  | true =>
                    simp only [hca, if_true, Prod.mk.injEq, SvgResp.file.injEq] at h
                    obtain ⟨⟨hct, hb⟩, hst, -⟩ := h
                    subst hst hct hb
                    simp [List.lookup]
                  | false =>
                    simp only [hca, Bool.false_eq_true, if_false] at h
                    cases hppm : env.ppmOk (standaloneWrap tex) with
                    | true =>
                      simp only [hppm, if_true, Prod.mk.injEq, SvgResp.file.injEq] at h
                      obtain ⟨⟨hct, hb⟩, hst, -⟩ := h
                      subst hst hct hb
                      simp [hsvg, List.lookup]
                    | false => simp [hppm] at h
                · rw [if_pos hrc] at h
                  cases hleg : env.runLegacy (standaloneWrap tex) with
                  | timeout => simp [hleg] at h
                  | done rc2 out2 =>
                    simp only [hleg] at h
                    by_cases hrc2 : rc2 = 0
                    · rw [if_neg (by simp [hrc2])] at h
                      cases hca : env.cairoOk (standaloneWrap tex) with
                      | true =>
                        simp only [hca, if_true, Prod.mk.injEq, SvgResp.file.injEq] at h
                        obtain ⟨⟨hct, hb⟩, hst, -⟩ := h
                        subst hst hct hb
                        simp [List.lookup]
                      | false =>
                        simp only [hca, Bool.false_eq_true, if_false] at h
                        cases hppm : env.ppmOk (standaloneWrap tex) with
                        | true =>
                          simp only [hppm, if_true, Prod.mk.injEq, SvgResp.file.injEq] at h
                          obtain ⟨⟨hct, hb⟩, hst, -⟩ := h
                          subst hst hct hb
                          simp [hsvg, List.lookup]
                        | false => simp [hppm] at h
                    · rw [if_pos hrc2] at h
                      simp at h

/-- **C2** (witness): a first request that compiles and stores the SVG,
then the same request served from the cache without compiling. -/
theorem C2_tex_svg_cache_witness :
    tex_svg c2Env ⟨[], []⟩ [] (some "x") none =
      (.file "image/svg+xml" [1, 2, 3], ⟨[("h.svg", [1, 2, 3])], []⟩, true) ∧
    tex_svg c2Env ⟨[("h.svg", [1, 2, 3])], []⟩ [] (some "x") none =
      (.file "image/svg+xml" [1, 2, 3], ⟨[("h.svg", [1, 2, 3])], []⟩, false) :=
  ⟨rfl, C2_tex_svg_cache c2Env ⟨[], []⟩ [] (some "x") none _ _ _ _ rfl⟩


theorem isPrefixOf_append_not_mem :
    ∀ (nd u : List Char) (c : Char) (r : List Char), c ∉ nd →
      nd.isPrefixOf (u ++ c :: r) = true → nd.isPrefixOf u = true := by
  intro nd
  induction nd with
  | nil => intro u c r _ _; simp [List.isPrefixOf]
  | cons d nd' ih =>
    intro u c r hc h
    cases u with
    | nil =>
      simp only [List.nil_append, List.isPrefixOf, Bool.and_eq_true, beq_iff_eq] at h
      exact absurd (h.1 ▸ List.mem_cons_self d nd') hc
    | cons a u' =>
      simp only [List.cons_append, List.isPrefixOf, Bool.and_eq_true] at h ⊢
      exact ⟨h.1, ih u' c r (fun hm => hc (List.mem_cons_of_mem _ hm)) h.2⟩

theorem hasSubstr_of_suffix_match :
    ∀ (nd t u : List Char), u <:+ t → u ≠ [] → nd.isPrefixOf u = true →
      hasSubstr nd t = true := by
  intro nd t
  induction t with
  | nil =>
    intro u hsuf hne _
    exact absurd (List.suffix_nil.mp hsuf) hne
  | cons c rest ih =>
    intro u hsuf hne hpre
    rcases List.suffix_cons_iff.mp hsuf with rfl | hsuf
    · simp [hasSubstr, hpre]
    · simp [hasSubstr, ih u hsuf hne hpre]

theorem no_item_prefix_across (t r u : List Char) (hs : hasSubstr itemLit t = false)
    (hsuf : u <:+ t) (hne : u ≠ []) :
    itemLit.isPrefixOf (u ++ '\n' :: r) = false := by
  by_contra hcon
  rw [Bool.not_eq_false] at hcon
  have hub : itemLit.isPrefixOf u = true :=
    isPrefixOf_append_not_mem itemLit u '\n' r (by decide) hcon
  rw [hasSubstr_of_suffix_match itemLit t u hsuf hne hub] at hs
  exact Bool.true_eq_false ▸ hs

theorem pyStrip_fix_dropWhile (t : List Char) (h : pyStrip t = t) :
    t.dropWhile isPySpace = t := by
  apply (List.dropWhile_suffix isPySpace).eq_of_length
  have h1 : (pyStrip t).length ≤ (t.dropWhile isPySpace).length := by
    unfold pyStrip
    calc ((((t.dropWhile isPySpace).reverse).dropWhile isPySpace).reverse).length
        = (((t.dropWhile isPySpace).reverse).dropWhile isPySpace).length := by
          rw [List.length_reverse]
      _ ≤ ((t.dropWhile isPySpace).reverse).length :=
          (List.dropWhile_suffix isPySpace).length_le
      _ = (t.dropWhile isPySpace).length := by rw [List.length_reverse]
  have h2 : (t.dropWhile isPySpace).length ≤ t.length :=
    (List.dropWhile_suffix isPySpace).length_le
  rw [h] at h1
  omega

theorem pyStrip_fix_rev_dropWhile (t : List Char) (h : pyStrip t = t) :
    t.reverse.dropWhile isPySpace = t.reverse := by
  have hfix := pyStrip_fix_dropWhile t h
  have h0 := h
  unfold pyStrip at h0
  rw [hfix] at h0
  have h2 := congrArg List.reverse h0
  simpa [List.reverse_reverse] using h2

theorem head_not_pySpace (c : Char) (rest : List Char)
    (h : (c :: rest).dropWhile isPySpace = c :: rest) : isPySpace c = false := by
  by_contra hcon
  rw [Bool.not_eq_false] at hcon
  rw [List.dropWhile_cons_of_pos hcon] at h
  have := (List.dropWhile_suffix (l := rest) isPySpace).length_le
  rw [h] at this
  simp at this

theorem dropWhile_append_of_fix (t r : List Char) (hne : t ≠ [])
    (h : t.dropWhile isPySpace = t) : (t ++ r).dropWhile isPySpace = t ++ r := by
  cases t with
  | nil => exact absurd rfl hne
  | cons c t' =>
    have hc := head_not_pySpace c t' h
    simp [List.dropWhile_cons, hc]

theorem pyStrip_append_nl (t : List Char) (hne : t ≠ []) (h : pyStrip t = t) :
    pyStrip (t ++ ['\n']) = t := by
  unfold pyStrip
  rw [dropWhile_append_of_fix t ['\n'] hne (pyStrip_fix_dropWhile t h)]
  rw [List.reverse_append]
  simp only [List.reverse_cons, List.reverse_nil, List.nil_append, List.singleton_append]
  rw [List.dropWhile_cons_of_pos (by decide)]
  rw [pyStrip_fix_rev_dropWhile t h, List.reverse_reverse]

theorem pyStrip_space_append_nl (t : List Char) (hne : t ≠ []) (h : pyStrip t = t) :
    pyStrip (' ' :: (t ++ ['\n'])) = t := by
  unfold pyStrip
  rw [List.dropWhile_cons_of_pos (by decide)]
  rw [dropWhile_append_of_fix t ['\n'] hne (pyStrip_fix_dropWhile t h)]
  rw [List.reverse_append]
  simp only [List.reverse_cons, List.reverse_nil, List.nil_append, List.singleton_append]
  rw [List.dropWhile_cons_of_pos (by decide)]
  rw [pyStrip_fix_rev_dropWhile t h, List.reverse_reverse]

theorem splitItemWsAux_skip :
    ∀ (pre rest acc : List Char),
      splitItemWsAux pre.length (pre ++ rest) acc = splitItemWsAux 0 rest acc := by
  intro pre
  induction pre with
  | nil => intro rest acc; rfl
  | cons c pre' ih =>
    intro rest acc
    show splitItemWsAux (pre'.length + 1) (c :: (pre' ++ rest)) acc = _
    simp only [splitItemWsAux]
    exact ih rest acc

theorem splitLineItemAux_skip :
    ∀ (pre rest acc : List Char) (ls : Bool), '\n' ∉ pre → pre ≠ [] →
      splitLineItemAux pre.length (pre ++ rest) ls acc =
        splitLineItemAux 0 rest false acc := by
  intro pre
  induction pre with
  | nil => intro rest acc ls _ hne; exact absurd rfl hne
  | cons c pre' ih =>
    intro rest acc ls hmem hne
    have hc : ¬ c = '\n' := fun h => hmem (h ▸ List.mem_cons_self c pre')
    cases pre' with
    | nil =>
      show splitLineItemAux 1 (c :: rest) ls acc = _
      simp only [splitLineItemAux]
      simp [hc]
    | cons d pre'' =>
      show splitLineItemAux ((d :: pre'').length + 1) (c :: ((d :: pre'') ++ rest)) ls acc = _
      simp only [splitLineItemAux]
      exact ih rest acc (decide (c = '\n'))
        (fun hm => hmem (List.mem_cons_of_mem _ hm)) (by simp)

theorem splitItemWsAux_through :
    ∀ (t rest acc : List Char),
      (∀ u, u <:+ t → u ≠ [] → itemLit.isPrefixOf (u ++ rest) = false) →
      splitItemWsAux 0 (t ++ rest) acc = splitItemWsAux 0 rest (t.reverse ++ acc) := by
  intro t
  induction t with
  | nil => intro rest acc _; simp
  | cons c t' ih =>
    intro rest acc hno
    have hpre : itemLit.isPrefixOf (c :: (t' ++ rest)) = false := by
      have h0 := hno (c :: t') (List.suffix_refl _) (by simp)
      simpa [List.cons_append] using h0
    show splitItemWsAux 0 (c :: (t' ++ rest)) acc = _
    simp only [splitItemWsAux, hpre, Bool.false_and, if_false]
    rw [ih rest (c :: acc)
      (fun u hsuf hne => hno u (List.suffix_cons_iff.mpr (Or.inr hsuf)) hne)]
    simp [List.reverse_cons, List.append_assoc]

theorem splitLineItemAux_through :
    ∀ (t rest acc : List Char), '\n' ∉ t →
      splitLineItemAux 0 (t ++ rest) false acc =
        splitLineItemAux 0 rest false (t.reverse ++ acc) := by
  intro t
  induction t with
  | nil => intro rest acc _; simp
  | cons c t' ih =>
    intro rest acc hmem
    have hc : ¬ c = '\n' := fun h => hmem (h ▸ List.mem_cons_self c t')
    show splitLineItemAux 0 (c :: (t' ++ rest)) false acc = _
    simp only [splitLineItemAux, Bool.false_and, if_false]
    rw [show (decide (c = '\n')) = false by simp [hc]]
    rw [ih rest (c :: acc) (fun hm => hmem (List.mem_cons_of_mem _ hm))]
    simp [List.reverse_cons, List.append_assoc]

theorem takeWhile_append_nil_of_fix (t r : List Char) (hne : t ≠ [])
    (h : t.dropWhile isPySpace = t) : (t ++ r).takeWhile isPySpace = [] := by
  cases t with
  | nil => exact absurd rfl hne
  | cons c t' =>
    have hc := head_not_pySpace c t' h
    simp [List.takeWhile_cons, hc]

theorem splitItemWsAux_block (t l : List Char) (acc : List Char) (hne : t ≠ [])
    (hstrip : pyStrip t = t) :
    splitItemWsAux 0 (itemLit ++ (' ' :: (t ++ l))) acc =
      acc.reverse :: splitItemWsAux 0 (t ++ l) [] := by
  show splitItemWsAux 0 ('\\' :: ('i' :: 't' :: 'e' :: 'm' :: ' ' :: (t ++ l))) acc = _
  have hws : (('i' :: 't' :: 'e' :: 'm' :: ' ' :: (t ++ l) : List Char).drop 4).takeWhile isPySpace
      = [' '] := by
    show ((' ' :: (t ++ l) : List Char)).takeWhile isPySpace = [' ']
    rw [List.takeWhile_cons_of_pos (by decide)]
    rw [takeWhile_append_nil_of_fix t l hne (pyStrip_fix_dropWhile t hstrip)]
  simp only [splitItemWsAux]
  rw [show (('\\' :: ('i' :: 't' :: 'e' :: 'm' :: ' ' :: (t ++ l)) : List Char).drop 5) = ' ' :: (t ++ l) from rfl]
  rw [List.takeWhile_cons_of_pos (by decide)]
  rw [takeWhile_append_nil_of_fix t l hne (pyStrip_fix_dropWhile t hstrip)]
  rw [show itemLit.isPrefixOf ('\\' :: ('i' :: 't' :: 'e' :: 'm' :: ' ' :: (t ++ l))) = true by
    simp [itemLit, List.isPrefixOf]]
  simp only [Bool.true_and, List.isEmpty_cons, Bool.not_false, if_true]
  congr 1

theorem splitItemWs_nl_step (ts : List (List Char)) (a : List Char) :
    splitItemWsAux 0 ('\n' :: renderChoices ts) a =
      splitItemWsAux 0 (renderChoices ts) ('\n' :: a) := rfl

theorem splitItemWs_render :
    ∀ (ts : List (List Char)) (acc : List Char),
      (∀ t ∈ ts, t ≠ [] ∧ pyStrip t = t ∧ '\n' ∉ t ∧ hasSubstr itemLit t = false) →
      splitItemWsAux 0 (renderChoices ts) acc =
        acc.reverse :: ts.map (fun t => t ++ ['\n']) := by
  intro ts
  induction ts with
  | nil => intro acc _; simp [renderChoices, splitItemWsAux]
  | cons t ts ih =>
    intro acc hc
    obtain ⟨hne, hstrip, hnl, hsub⟩ := hc t (List.mem_cons_self t ts)
    have hshape : renderChoices (t :: ts) =
        itemLit ++ (' ' :: (t ++ '\n' :: renderChoices ts)) := by
      simp [renderChoices, List.append_assoc]
    rw [hshape, splitItemWsAux_block t ('\n' :: renderChoices ts) acc hne hstrip]
    rw [splitItemWsAux_through t ('\n' :: renderChoices ts) []
      (fun u hsuf hune => no_item_prefix_across t (renderChoices ts) u hsub hsuf hune)]
    rw [splitItemWs_nl_step ts (t.reverse ++ [])]
    rw [ih ('\n' :: (t.reverse ++ [])) (fun t2 ht2 => hc t2 (List.mem_cons_of_mem _ ht2))]
    simp [List.reverse_cons]

theorem splitLineItemAux_block (t l acc : List Char) :
    splitLineItemAux 0 (itemLit ++ (' ' :: (t ++ l))) true acc =
      acc.reverse :: splitLineItemAux 0 (t ++ l) false [' '] := rfl

theorem splitLineItem_nl_step (ts : List (List Char)) (a : List Char) :
    splitLineItemAux 0 ('\n' :: renderChoices ts) false a =
      splitLineItemAux 0 (renderChoices ts) true ('\n' :: a) := rfl

theorem splitLineItem_render :
    ∀ (ts : List (List Char)) (acc : List Char),
      (∀ t ∈ ts, t ≠ [] ∧ pyStrip t = t ∧ '\n' ∉ t ∧ hasSubstr itemLit t = false) →
      splitLineItemAux 0 (renderChoices ts) true acc =
        acc.reverse :: ts.map (fun t => ' ' :: (t ++ ['\n'])) := by
  intro ts
  induction ts with
  | nil => intro acc _; simp [renderChoices, splitLineItemAux]
  | cons t ts ih =>
    intro acc hc
    obtain ⟨hne, hstrip, hnl, hsub⟩ := hc t (List.mem_cons_self t ts)
    have hshape : renderChoices (t :: ts) =
        itemLit ++ (' ' :: (t ++ '\n' :: renderChoices ts)) := by
      simp [renderChoices, List.append_assoc]
    rw [hshape, splitLineItemAux_block t ('\n' :: renderChoices ts) acc]
    rw [splitLineItemAux_through t ('\n' :: renderChoices ts) [' '] hnl]
    rw [splitLineItem_nl_step ts (t.reverse ++ [' '])]
    rw [ih ('\n' :: (t.reverse ++ [' '])) (fun t2 ht2 => hc t2 (List.mem_cons_of_mem _ ht2))]
    simp [List.reverse_cons]

theorem zipLetters_eq_enumLabels (ts : List (List Char)) (h : ts.length ≤ 26) :
    (lettersLit.zip ts).map (fun cp => ([cp.1], cp.2)) =
      ts.enum.map (fun ip => (nestedLabel ip.1, ip.2)) := by
  have hlen26 : lettersLit.length = 26 := rfl
  apply List.ext_getElem
  · simp only [List.length_map, List.length_zip, hlen26, List.enum_length]
    omega
  · intro i h1 h2
    have hi : i < ts.length := by
      simp only [List.length_map, List.length_zip, hlen26] at h1
      omega
    have hi26 : i < 26 := lt_of_lt_of_le hi h
    simp only [List.getElem_map, List.getElem_zip, List.getElem_enum]
    have hlab : nestedLabel i = [lettersLit.getD i 'A'] := by
      unfold nestedLabel
      rw [if_pos hi26]
    rw [hlab, List.getD_eq_getElem lettersLit 'A' (by omega : i < lettersLit.length)]

theorem mapPartsBlank (ts : List (List Char)) (g : List Char → List Char)
    (hts : ∀ t ∈ ts, t ≠ [] ∧ pyStrip t = t ∧ '\n' ∉ t ∧ hasSubstr itemLit t = false)
    (hg : ∀ t ∈ ts, pyStrip (g t) = t) :
    ∀ x ∈ ts.map g, (!(isBlank x)) = true := by
  intro x hx
  obtain ⟨t, ht, rfl⟩ := List.mem_map.mp hx
  obtain ⟨hne, -, -, -⟩ := hts t ht
  simp [isBlank, hg t ht, hne]

/-- **C8** (amended): the two choice parsers are *not* equivalent in
general (`split_choices_from_body` splits at `\item`+whitespace anywhere
and keeps nonblank text before the first `\item`, labelling at most 26
parts; `_parse_nested_choices` splits only at line-start `\item` tokens,
always drops the segment before the first one, and numbers parts beyond
`Z`).  They do agree — assigning letters `A`, `B`, … to the `\item` parts
in order of appearance — on every body in which each choice is written on
its own line as `\item ⟨text⟩` with the text nonempty, trimmed, free of
newlines and of embedded `\item` tokens, and there are at most 26
choices. -/
theorem C8_choice_parsers (ts : List (List Char)) (hlen : ts.length ≤ 26)
    (hts : ∀ t ∈ ts, t ≠ [] ∧ pyStrip t = t ∧ '\n' ∉ t ∧ hasSubstr itemLit t = false) :
    split_choices_from_body (renderChoices ts) = parse_nested_choices (renderChoices ts) ∧
    split_choices_from_body (renderChoices ts) =
      ts.enum.map (fun ip => (nestedLabel ip.1, ip.2)) := by
  have hg1 : ∀ t ∈ ts, pyStrip (t ++ ['\n']) = t := by
    intro t ht
    obtain ⟨hne, hstrip, -, -⟩ := hts t ht
    exact pyStrip_append_nl t hne hstrip
  have hg2 : ∀ t ∈ ts, pyStrip (' ' :: (t ++ ['\n'])) = t := by
    intro t ht
    obtain ⟨hne, hstrip, -, -⟩ := hts t ht
    exact pyStrip_space_append_nl t hne hstrip
  have hsplit : split_choices_from_body (renderChoices ts) =
      (lettersLit.zip ts).map (fun cp => ([cp.1], cp.2)) := by
    unfold split_choices_from_body reSplitItemWs
    rw [splitItemWs_render ts [] hts]
    rw [show (List.reverse ([] : List Char) :: ts.map (fun t => t ++ ['\n'])).filter
        (fun p => !(isBlank p)) = (ts.map (fun t => t ++ ['\n'])).filter
        (fun p => !(isBlank p)) from rfl]
    rw [List.filter_eq_self.mpr (mapPartsBlank ts _ hts hg1)]
    rw [List.map_map]
    have hco : ∀ t ∈ ts, (pyStrip ∘ fun t => t ++ ['\n']) t = id t := by
      intro t ht
      simpa [Function.comp] using hg1 t ht
    rw [List.map_congr_left hco, List.map_id]
  have hparse : parse_nested_choices (renderChoices ts) =
      ts.enum.map (fun ip => (nestedLabel ip.1, ip.2)) := by
    unfold parse_nested_choices reSplitLineItem
    rw [splitLineItem_render ts [] hts]
    rw [show (List.reverse ([] : List Char) :: ts.map (fun t => ' ' :: (t ++ ['\n']))).drop 1
        = ts.map (fun t => ' ' :: (t ++ ['\n'])) from rfl]
    rw [List.filter_eq_self.mpr (mapPartsBlank ts _ hts hg2)]
    apply List.ext_getElem
    · simp [List.enum_length]
    · intro i h1 h2
      have hi : i < ts.length := by
        simpa [List.enum_length, List.length_map] using h1
      simp only [List.getElem_map, List.getElem_enum, Prod.mk.injEq]
      exact ⟨trivial, hg2 _ (List.getElem_mem hi)⟩
  exact ⟨(hsplit.trans (zipLetters_eq_enumLabels ts hlen)).trans hparse.symm,
         hsplit.trans (zipLetters_eq_enumLabels ts hlen)⟩

/-- **C8** (counterexample): on the single-line body `\item a \item b`,
`split_choices_from_body` yields `{A: a, B: b}` while `_parse_nested_choices`
yields `{A: a \item b}` — the two choice parsers are not equivalent. -/
theorem C8_counterexample :
    split_choices_from_body c8Body = [(['A'], ['a']), (['B'], ['b'])] ∧
    parse_nested_choices c8Body = [(['A'], "a \\item b".toList)] ∧
    split_choices_from_body c8Body ≠ parse_nested_choices c8Body := by
  refine ⟨by decide, by decide, by decide⟩

/-- **C8** (witness): on the two-choice body rendered one `\item` per line
the two parsers agree and produce `{A: a, B: b}`. -/
theorem C8_choice_parsers_witness :
    split_choices_from_body (renderChoices [['a'], ['b']]) =
      parse_nested_choices (renderChoices [['a'], ['b']]) ∧
    split_choices_from_body (renderChoices [['a'], ['b']]) =
      [(['A'], ['a']), (['B'], ['b'])] := by
  have h := C8_choice_parsers [['a'], ['b']] (by decide) (by decide)
  exact ⟨h.1, h.2.trans (by decide)⟩


end LMS
